import Mathlib

/-!
# Login-attempt collector (package `collector`)

A shallow embedding of `collector/log_attempts.go`, with what it uses of
`collector/k8s_common.go` (the result of `getPodLogs`) and of
`collector/collector.go` (the constant `namespace`), followed by the
properties of its aggregation, merge, emission and extraction code.

Modelling conventions.

* A Go `map[string]V` is an association list with pairwise distinct keys
  (`AList`); a `range` over the map visits the entries in the list's order.
  Go leaves that order unspecified, so every aggregate theorem below is stated
  for all association lists and speaks of counts, membership and multiplicity,
  never of a position in the output.
* A nil map is `none`: it reads as an empty map and ranges over nothing.
  Inner maps are only ever created by `addAttempt` as non-nil map literals.
* Go `int` counts are `Int` without wrap-around: a count grows by one per
  executed `addAttempt` call, and reaching 2^63 would take that many matched
  log lines or channel entries held in memory.
* A channel that is filled, closed and then drained by `range` is the list of
  the values sent, in arrival order.
* Go strings are `String`; the regexp engine works on the list of characters
  (log text is taken to be valid UTF-8).
-/

namespace Collector

/-! ## Data model -/

/-- Go `map[string]V`: distinct keys, iteration in list order. -/
abbrev GoMap (V : Type) := AList (fun _ : String => V)

/-- `type LoginAttempts struct { Attempts map[string]map[string]int }`;
`none` is the nil map of the zero value. -/
structure LoginAttempts where
  Attempts : Option (GoMap (GoMap Int))

/-- The aggregate of `var attempts LoginAttempts`: the zero value, map nil. -/
def LoginAttempts.zero : LoginAttempts := ⟨none⟩

/-- Reading `l.Attempts` as a map: a nil map reads as the empty map. -/
def LoginAttempts.outer (l : LoginAttempts) : GoMap (GoMap Int) :=
  match l.Attempts with
  | none => ∅
  | some m => m

/-- The comma-ok read `c, ok := l.Attempts[user][provider]`: `some c` when
both keys are present, `none` otherwise. -/
def LoginAttempts.lookupPair (l : LoginAttempts) (user provider : String) : Option Int :=
  match l.outer.lookup user with
  | none => none
  | some m => m.lookup provider

/-- The plain read `l.Attempts[user][provider]`: the zero value 0 when either
key is missing. -/
def LoginAttempts.countOf (l : LoginAttempts) (user provider : String) : Int :=
  (l.lookupPair user provider).getD 0

/-- `func (l *LoginAttempts) addAttempt(user string, provider string)`. -/
def LoginAttempts.addAttempt (l : LoginAttempts) (user provider : String) : LoginAttempts :=
  -- Init user 1st level map
  let m0 : GoMap (GoMap Int) :=
    match l.Attempts with
    | none => ∅
    | some m => m
  -- Init provider 2nd level map
  let m1 : GoMap (GoMap Int) :=
    match m0.lookup user with
    | none => m0.insert user ∅
    | some _ => m0
  -- Add or increment count for each provider
  let inner : GoMap Int := (m1.lookup user).getD ∅
  let inner1 : GoMap Int :=
    match inner.lookup provider with
    | none => inner.insert provider 1
    | some c => inner.insert provider (c + 1)
  ⟨some (m1.insert user inner1)⟩

/-- `func (l *LoginAttempts) getUserList() []string`. -/
def LoginAttempts.getUserList (l : LoginAttempts) : List String :=
  l.outer.keys

/-- `func (l *LoginAttempts) getProviderList() []string`: for every user, every
provider of that user is appended (no de-duplication). -/
def LoginAttempts.getProviderList (l : LoginAttempts) : List String :=
  l.outer.entries.flatMap (fun e => e.2.keys)

/-! ## Merge loop and emission of `pushLoginAttemptsIntoMetricsChannel` -/

/-- The loop `for n := 0; n < c; n++ { mergedAttempts.addAttempt(user, provider) }`
run `n` times. -/
def addAttemptTimes (user provider : String) : Nat → LoginAttempts → LoginAttempts
  | 0, merged => merged
  | n + 1, merged => addAttemptTimes user provider n (merged.addAttempt user provider)

/-- The two nested loops `for i := range users { for j := range providers { ... } }`
over given key lists, reading the counts from `attempts`. -/
def mergeOver (attempts : LoginAttempts) (users providers : List String)
    (merged : LoginAttempts) : LoginAttempts :=
  users.foldl
    (fun acc u =>
      providers.foldl
        (fun acc1 p => addAttemptTimes u p (attempts.countOf u p).toNat acc1)
        acc)
    merged

/-- One iteration of `for attempts := range attemptsCh`, with accumulator
`merged` and received partial `attempts`. -/
def mergeStep (merged attempts : LoginAttempts) : LoginAttempts :=
  let users := attempts.getUserList
  let providers := attempts.getProviderList
  mergeOver attempts users providers merged

/-- The whole merge loop: `var mergedAttempts LoginAttempts` followed by the
`range` over the channel. -/
def mergeLoop (attemptsCh : List LoginAttempts) : LoginAttempts :=
  attemptsCh.foldl mergeStep LoginAttempts.zero

/-- A metric descriptor as built by `prometheus.NewDesc(fqName, help, variableLabels, nil)`. -/
structure Desc where
  fqName : String
  help : String
  variableLabels : List String
  deriving DecidableEq

/-- An observation sent on the metrics channel: the result of
`prometheus.MustNewConstMetric(desc, CounterValue, float64(v), labelValues...)`.
The value is kept as the integer that is converted (the conversion is exact
below 2^53). -/
structure Metric where
  desc : Desc
  value : Int
  labelValues : List String
  deriving DecidableEq

/-- The value of the label called `name`: label values are paired with the
descriptor's variable labels by position. -/
def Metric.label (m : Metric) (name : String) : Option String :=
  (m.desc.variableLabels.zip m.labelValues).lookup name

/-- The constant `namespace` of `collector.go`. -/
def exporterNamespace : String := "openshift_audit"

def loginAttempts : String := "login_attempts"

/-- The function `prometheus.BuildFQName`. -/
def BuildFQName (ns subsystem name : String) : String :=
  if name = "" then ""
  else if ns ≠ "" ∧ subsystem ≠ "" then ns ++ "_" ++ subsystem ++ "_" ++ name
  else if ns ≠ "" then ns ++ "_" ++ name
  else if subsystem ≠ "" then subsystem ++ "_" ++ name
  else name

def loginsSucceededDesc : Desc :=
  ⟨BuildFQName exporterNamespace loginAttempts "successful",
   "The ammount of succeeded login actions", ["auth_provider", "user"]⟩

def loginsFailedDesc : Desc :=
  ⟨BuildFQName exporterNamespace loginAttempts "failed",
   "The ammount of failed login actions", ["auth_provider", "user"]⟩

/-- The loop under `// Sending Metrics`: one metric per entry of every inner
map, with label values `i, j` (outer key, inner key). -/
def sendMetrics (metricDesc : Desc) (mergedAttempts : LoginAttempts) : List Metric :=
  mergedAttempts.outer.entries.flatMap
    (fun e => e.2.entries.map (fun f => (⟨metricDesc, f.2, [e.1, f.1]⟩ : Metric)))

/-- `func pushLoginAttemptsIntoMetricsChannel(metricsCh, attemptsCh, metricDesc, logger)`:
the metrics it sends on `metricsCh`. -/
def pushLoginAttemptsIntoMetricsChannel (attemptsCh : List LoginAttempts)
    (metricDesc : Desc) : List Metric :=
  sendMetrics metricDesc (mergeLoop attemptsCh)

/-! ## The regexp fragment used by the registered patterns

`regexp.MustCompile` and `FindAllStringSubmatch` belong to the Go standard
library. The model covers the syntax the four registered patterns are written
in: literal characters, escaped punctuation, the greedy `.*` and the lazy
capturing group `(.*?)`. Matching is leftmost-first: the earliest start
position wins and, at that position, the match a backtracking search finds
first. `.` does not match a newline. -/

/-- One element of a compiled pattern. -/
inductive Inst where
  | char (c : Char)
  | anyStar
  | lazyCap
  deriving DecidableEq

/-- The characters with a special meaning in a pattern. -/
def isMeta (c : Char) : Bool :=
  c = '\\' || c = '.' || c = '+' || c = '*' || c = '?' || c = '(' || c = ')' || c = '|' ||
  c = '[' || c = ']' || c = '{' || c = '}' || c = '^' || c = '$'

/-- Reading a pattern: `(.*?)` is a lazy capturing group, `.*` a greedy
repetition, a backslash followed by ASCII punctuation is that character, any
other non-special character is itself; anything else is outside the
fragment (`none`). -/
def parsePattern : List Char → Option (List Inst)
  | [] => some []
  | '(' :: '.' :: '*' :: '?' :: ')' :: r => (parsePattern r).map (fun p => Inst.lazyCap :: p)
  | '.' :: '*' :: r => (parsePattern r).map (fun p => Inst.anyStar :: p)
  | '\\' :: c :: r =>
    if c.toNat < 128 ∧ c.isAlphanum = false then
      (parsePattern r).map (fun p => Inst.char c :: p)
    else none
  | c :: r => if isMeta c then none else (parsePattern r).map (fun p => Inst.char c :: p)

/-- `regexp.MustCompile(regex)`; `none` stands for the panic on a malformed
pattern and for patterns outside the modelled fragment. -/
def MustCompile (regex : String) : Option (List Inst) :=
  parsePattern regex.data

/-- Result of matching at one position: the captured groups in order, and the
input left after the match. -/
abbrev MatchResult := List (List Char) × List Char

/-- Greedy `.*` followed by the continuation `k`: take as many non-newline
characters as possible, giving back one at a time. -/
def greedyLoop (k : List Char → Option MatchResult) : List Char → Option MatchResult
  | [] => k []
  | x :: t =>
    if x ≠ '\n' then
      match greedyLoop k t with
      | some r => some r
      | none => k (x :: t)
    else k (x :: t)

/-- Lazy `.*?` followed by the continuation `k`: take as few non-newline
characters as possible. Returns the characters taken and the result of `k`. -/
def lazyLoop (k : List Char → Option MatchResult) : List Char → Option (List Char × MatchResult)
  | [] => (k []).map (fun r => ([], r))
  | x :: t =>
    match k (x :: t) with
    | some r => some ([], r)
    | none =>
      if x ≠ '\n' then (lazyLoop k t).map (fun cr => (x :: cr.1, cr.2))
      else none

/-- Backtracking match of a compiled pattern anchored at the head of the input. -/
def matchHere : List Inst → List Char → Option MatchResult
  | [], s => some ([], s)
  | Inst.char c :: r, s =>
    match s with
    | [] => none
    | x :: t => if x = c then matchHere r t else none
  | Inst.anyStar :: r, s => greedyLoop (matchHere r) s
  | Inst.lazyCap :: r, s =>
    (lazyLoop (matchHere r) s).map (fun cr => (cr.1 :: cr.2.1, cr.2.2))

/-- Leftmost search from position `i` (the head of the given suffix): start
and end positions of the first match, with its captures. -/
def search (re : List Inst) : List Char → Nat → Option (Nat × Nat × List (List Char))
  | [], i =>
    match matchHere re [] with
    | some (caps, _) => some (i, i, caps)
    | none => none
  | x :: t, i =>
    match matchHere re (x :: t) with
    | some (caps, rest) => some (i, i + ((x :: t).length - rest.length), caps)
    | none => search re t (i + 1)

/-- `re.doExecute(nil, b, s, pos, ncap, nil)`: the leftmost match at or after `pos`. -/
def doExecute (re : List Inst) (s : List Char) (pos : Nat) :
    Option (Nat × Nat × List (List Char)) :=
  search re (s.drop pos) pos

/-- The loop of `(*Regexp).allMatches`: successive non-overlapping matches,
an empty match being skipped when it touches the previous match. Each match
is delivered as whole match followed by the groups. The first argument bounds
the number of iterations; `none` when it is used up. -/
def allMatches (re : List Inst) (s : List Char) :
    Nat → Nat → Option Nat → Option (List (List (List Char)))
  | 0, _, _ => none
  | fuel + 1, pos, prevMatchEnd =>
    if s.length < pos then some []
    else
      match doExecute re s pos with
      | none => some []
      | some (m0, m1, caps) =>
        let accept : Bool := !(m1 = pos && prevMatchEnd = some m0)
        let pos1 : Nat :=
          if m1 = pos then (if pos < s.length then pos + 1 else s.length + 1) else m1
        match allMatches re s fuel pos1 (some m1) with
        | none => none
        | some rest =>
          if accept then some ((((s.drop m0).take (m1 - m0)) :: caps) :: rest) else some rest

/-- `re.FindAllStringSubmatch(line, -1)`. The position grows in every
iteration and stays within `0 .. len`, so `len + 2` iterations suffice. -/
def FindAllStringSubmatch (re : List Inst) (line : String) : Option (List (List String)) :=
  (allMatches re line.data (line.data.length + 2) 0 none).map
    (fun ms => ms.map (fun m => m.map String.mk))

/-! ## Patterns and extraction -/

def loginSuccessHtpasswdRegex : String :=
  "Login with provider \"(.*?)\" succeeded for \"(.*?)\""

def loginFailHtpasswdRegex : String :=
  "Login with provider \"(.*?)\" failed for \"(.*?)\""

def loginSuccessOAuthRegex : String :=
  ".*\\] (.*?) authentication succeeded:.*\\\x7bName:\"(.*?)\",.*"

def loginFailOAuthRegex : String :=
  ".*\\] (.*?) authentication failed:.*\\\x7bName:\"(.*?)\",.*"

def listOfRegex : List String :=
  [loginSuccessHtpasswdRegex, loginSuccessOAuthRegex, loginFailHtpasswdRegex, loginFailOAuthRegex]

/-- The inner loop of `getLoginMatchesByRegex`: `user := matches[i][1]`,
`provider := matches[i][2]`, append `[]string{user, provider}`; `none` is the
index-out-of-range panic. -/
def matchesToPairs : List (List String) → Option (List (List String))
  | [] => some []
  | m :: ms =>
    match m[1]?, m[2]?, matchesToPairs ms with
    | some user, some provider, some rest => some ([user, provider] :: rest)
    | _, _, _ => none

/-- The outer loop of `getLoginMatchesByRegex` over the log lines. -/
def matchLines (re : List Inst) : List String → Option (List (List String))
  | [] => some []
  | line :: rest =>
    match FindAllStringSubmatch re line with
    | none => none
    | some ms =>
      match matchesToPairs ms, matchLines re rest with
      | some here, some later => some (here ++ later)
      | _, _ => none

/-- `func getLoginMatchesByRegex(regex string, logLines *[]string) [][]string`. -/
def getLoginMatchesByRegex (regex : String) (logLines : List String) :
    Option (List (List String)) :=
  match MustCompile regex with
  | none => none
  | some re => matchLines re logLines

/-- The loop of `loginMatchesToLoginAttempts` from accumulator `attempts`:
`attempts.addAttempt(results[i][0], results[i][1])`. -/
def addResults : List (List String) → LoginAttempts → Option LoginAttempts
  | [], attempts => some attempts
  | r :: rs, attempts =>
    match r[0]?, r[1]? with
    | some user, some provider => addResults rs (attempts.addAttempt user provider)
    | _, _ => none

/-- `func loginMatchesToLoginAttempts(results [][]string) *LoginAttempts`. -/
def loginMatchesToLoginAttempts (results : List (List String)) : Option LoginAttempts :=
  addResults results LoginAttempts.zero

/-- `func getLoginActions(regex string, logLines []string) *LoginAttempts`. -/
def getLoginActions (regex : String) (logLines : List String) : Option LoginAttempts :=
  match getLoginMatchesByRegex regex logLines with
  | none => none
  | some results => loginMatchesToLoginAttempts results

/-! ## The scrape cycle

A pod is given by the outcome of `getPodLogs`: `some lines` (the log split at
newlines) or `none` when the fetch failed and `(nil, err)` was returned. -/

/-- The body of the goroutine started for one pod, after `logs, _ := getPodLogs(...)`:
the values sent on `successfulLoginChannel` and on `failedLoginChannel`. -/
def scrapePod (logs : List String) : Option (List LoginAttempts × List LoginAttempts) :=
  match getLoginActions loginSuccessHtpasswdRegex logs,
        getLoginActions loginFailHtpasswdRegex logs,
        getLoginActions loginSuccessOAuthRegex logs,
        getLoginActions loginFailOAuthRegex logs with
  | some a, some b, some c, some d => some ([a, c], [b, d])
  | _, _, _, _ => none

/-- The contents of the two channels after `wg.Wait()` when the goroutines
deliver pod by pod: a failed fetch leaves `logs` nil. -/
def fillChannels : List (Option (List String)) →
    Option (List LoginAttempts × List LoginAttempts)
  | [] => some ([], [])
  | pod :: pods =>
    match scrapePod (pod.getD []), fillChannels pods with
    | some (s, f), some (ss, fs) => some (s ++ ss, f ++ fs)
    | _, _ => none

/-- `func (ScrapeLogginAttempts) Scrape(ch, logger) error` once the pod list has
been obtained: the metrics sent on `ch`. -/
def Scrape (pods : List (Option (List String))) : Option (List Metric) :=
  match fillChannels pods with
  | none => none
  | some (succeeded, failed) =>
    some (pushLoginAttemptsIntoMetricsChannel succeeded loginsSucceededDesc ++
      pushLoginAttemptsIntoMetricsChannel failed loginsFailedDesc)

/-! ## Notions used in the statements -/

/-- What one received partial adds to the pair `(u, p)` of the accumulator:
its count, once for every occurrence of `u` in the user list and of `p` in
the provider list. -/
def contribution (a : LoginAttempts) (u p : String) : Int :=
  ((a.getUserList.count u * (a.getProviderList.count p * (a.countOf u p).toNat) : Nat) : Int)

/-- Every stored count is at least 1. -/
def Positive (l : LoginAttempts) : Prop :=
  ∀ u p c, l.lookupPair u p = some c → 1 ≤ c

/-- Number of capturing groups of a compiled pattern. -/
def capCount : List Inst → Nat
  | [] => 0
  | Inst.lazyCap :: r => capCount r + 1
  | _ :: r => capCount r

/-! ## Small runs -/

set_option maxRecDepth 100000 in
theorem scrape_example :
    Scrape [some ["Login with provider \"htpasswd\" succeeded for \"alice\""],
            some ["I0101 10:00:00 1 x.go:1] github authentication failed: &user.DefaultInfo\x7bName:\"bob\", UID:\"\"\x7d"]]
      = some [⟨loginsSucceededDesc, 1, ["htpasswd", "alice"]⟩,
              ⟨loginsFailedDesc, 1, ["github", "bob"]⟩] := by
  decide

/-! ## `addAttempt` -/

theorem outer_zero : LoginAttempts.zero.outer = ∅ := rfl

theorem lookupPair_zero (u p : String) : LoginAttempts.zero.lookupPair u p = none := rfl

theorem countOf_zero (u p : String) : LoginAttempts.zero.countOf u p = 0 := rfl

theorem addAttempt_outer (l : LoginAttempts) (u p : String) :
    (l.addAttempt u p).outer =
      (match l.outer.lookup u with
        | none => l.outer.insert u ∅
        | some _ => l.outer).insert u
        (match ((match l.outer.lookup u with
                  | none => l.outer.insert u ∅
                  | some _ => l.outer).lookup u).getD ∅ |>.lookup p with
          | none => (((match l.outer.lookup u with
                  | none => l.outer.insert u ∅
                  | some _ => l.outer).lookup u).getD ∅).insert p 1
          | some c => (((match l.outer.lookup u with
                  | none => l.outer.insert u ∅
                  | some _ => l.outer).lookup u).getD ∅).insert p (c + 1)) := by
  obtain ⟨a⟩ := l
  cases a <;> rfl

theorem lookupPair_addAttempt_self (l : LoginAttempts) (u p : String) :
    (l.addAttempt u p).lookupPair u p = some (l.countOf u p + 1) := by
  simp only [LoginAttempts.lookupPair, LoginAttempts.countOf, addAttempt_outer]
  cases hu : l.outer.lookup u with
  | none => simp [-AList.insert_empty, AList.lookup_insert]
  | some inner =>
    cases hp : inner.lookup p with
    | none => simp [-AList.insert_empty, AList.lookup_insert, hu, hp]
    | some c => simp [-AList.insert_empty, AList.lookup_insert, hu, hp]

theorem lookupPair_addAttempt_other (l : LoginAttempts) (u p u1 p1 : String)
    (h : ¬ (u1 = u ∧ p1 = p)) :
    (l.addAttempt u p).lookupPair u1 p1 = l.lookupPair u1 p1 := by
  simp only [LoginAttempts.lookupPair, addAttempt_outer]
  by_cases hu1 : u1 = u
  · subst hu1
    have hp1 : p1 ≠ p := fun e => h ⟨rfl, e⟩
    cases hu : l.outer.lookup u1 with
    | none => simp [-AList.insert_empty, AList.lookup_insert, AList.lookup_insert_ne hp1]
    | some inner =>
      cases hp : inner.lookup p with
      | none => simp [-AList.insert_empty, AList.lookup_insert, AList.lookup_insert_ne hp1, hu, hp]
      | some c => simp [-AList.insert_empty, AList.lookup_insert, AList.lookup_insert_ne hp1, hu, hp]
  · cases hu : l.outer.lookup u with
    | none => simp [-AList.insert_empty, AList.lookup_insert_ne hu1]
    | some inner => simp [-AList.insert_empty, AList.lookup_insert_ne hu1]

theorem countOf_addAttempt_self (l : LoginAttempts) (u p : String) :
    (l.addAttempt u p).countOf u p = l.countOf u p + 1 := by
  rw [LoginAttempts.countOf, lookupPair_addAttempt_self]; rfl

theorem countOf_addAttempt_other (l : LoginAttempts) (u p u1 p1 : String)
    (h : ¬ (u1 = u ∧ p1 = p)) :
    (l.addAttempt u p).countOf u1 p1 = l.countOf u1 p1 := by
  rw [LoginAttempts.countOf, lookupPair_addAttempt_other l u p u1 p1 h]; rfl

/-! ## The merge loop: what one received partial adds -/

theorem countOf_addAttemptTimes (u p : String) (n : Nat) (m : LoginAttempts) (u1 p1 : String) :
    (addAttemptTimes u p n m).countOf u1 p1 =
      m.countOf u1 p1 + (if u1 = u ∧ p1 = p then (n : Int) else 0) := by
  induction n generalizing m with
  | zero => simp [addAttemptTimes]
  | succ k ih =>
    rw [addAttemptTimes, ih]
    by_cases h : u1 = u ∧ p1 = p
    · obtain ⟨rfl, rfl⟩ := h
      rw [countOf_addAttempt_self]
      simp only [and_self, if_true]
      push_cast
      ring
    · rw [countOf_addAttempt_other m u p u1 p1 h]
      simp [h]

theorem countOf_providers_foldl (a : LoginAttempts) (u : String) (providers : List String)
    (m : LoginAttempts) (u1 p1 : String) :
    (providers.foldl (fun acc1 p => addAttemptTimes u p (a.countOf u p).toNat acc1) m).countOf u1 p1 =
      m.countOf u1 p1 +
        (if u1 = u then ((providers.count p1 * (a.countOf u1 p1).toNat : Nat) : Int) else 0) := by
  induction providers generalizing m with
  | nil => simp
  | cons q qs ih =>
    rw [List.foldl_cons, ih, countOf_addAttemptTimes]
    by_cases hu : u1 = u
    · subst hu
      by_cases hq : p1 = q
      · subst hq
        simp only [and_self, if_true, List.count_cons_self]
        push_cast
        ring
      · have hq1 : (q == p1) = false := by
          simp only [beq_eq_false_iff_ne, ne_eq]
          exact fun e => hq e.symm
        simp [hq, List.count_cons, hq1]
    · simp [hu]

/-- What the nested loops add to the pair `(u1, p1)`: the partial's count, once
for every occurrence of `u1` in `users` and of `p1` in `providers`. -/
theorem countOf_mergeOver (a : LoginAttempts) (users providers : List String)
    (m : LoginAttempts) (u1 p1 : String) :
    (mergeOver a users providers m).countOf u1 p1 =
      m.countOf u1 p1 +
        ((users.count u1 * (providers.count p1 * (a.countOf u1 p1).toNat) : Nat) : Int) := by
  unfold mergeOver
  induction users generalizing m with
  | nil => simp
  | cons v vs ih =>
    rw [List.foldl_cons, ih, countOf_providers_foldl]
    by_cases hv : u1 = v
    · subst hv
      simp only [if_true, List.count_cons_self]
      push_cast
      ring
    · have hv1 : (v == u1) = false := by
        simp only [beq_eq_false_iff_ne, ne_eq]
        exact fun e => hv e.symm
      simp [hv, List.count_cons, hv1]

/-- The order in which the two `range` loops deliver the keys does not change
any count. -/
theorem countOf_mergeOver_perm (a : LoginAttempts) (users users1 providers providers1 : List String)
    (hu : users.Perm users1) (hp : providers.Perm providers1)
    (m : LoginAttempts) (u1 p1 : String) :
    (mergeOver a users1 providers1 m).countOf u1 p1 =
      (mergeOver a users providers m).countOf u1 p1 := by
  rw [countOf_mergeOver, countOf_mergeOver, hu.count_eq, hp.count_eq]

theorem countOf_mergeStep (m a : LoginAttempts) (u p : String) :
    (mergeStep m a).countOf u p = m.countOf u p + contribution a u p := by
  simp only [mergeStep, contribution, countOf_mergeOver]

theorem countOf_foldl_mergeStep (l : List LoginAttempts) (m : LoginAttempts) (u p : String) :
    (l.foldl mergeStep m).countOf u p =
      m.countOf u p + (l.map (fun a => contribution a u p)).sum := by
  induction l generalizing m with
  | nil => simp
  | cons a as ih =>
    rw [List.foldl_cons, ih, countOf_mergeStep, List.map_cons, List.sum_cons]
    ring

theorem countOf_mergeLoop (l : List LoginAttempts) (u p : String) :
    (mergeLoop l).countOf u p = (l.map (fun a => contribution a u p)).sum := by
  rw [mergeLoop, countOf_foldl_mergeStep, countOf_zero, zero_add]

/-! ## Stored counts of a merged aggregate are positive -/

theorem positive_zero : Positive LoginAttempts.zero := by
  intro u p c h
  rw [lookupPair_zero] at h
  cases h

theorem countOf_nonneg_of_positive (l : LoginAttempts) (h : Positive l) (u p : String) :
    0 ≤ l.countOf u p := by
  unfold LoginAttempts.countOf
  cases hl : l.lookupPair u p with
  | none => simp
  | some c =>
    have := h u p c hl
    simp only [Option.getD_some]
    omega

theorem positive_addAttempt (l : LoginAttempts) (h : Positive l) (u p : String) :
    Positive (l.addAttempt u p) := by
  intro u1 p1 c hc
  by_cases hup : u1 = u ∧ p1 = p
  · obtain ⟨rfl, rfl⟩ := hup
    rw [lookupPair_addAttempt_self] at hc
    have h0 := countOf_nonneg_of_positive l h u1 p1
    simp only [Option.some.injEq] at hc
    omega
  · rw [lookupPair_addAttempt_other l u p u1 p1 hup] at hc
    exact h u1 p1 c hc

theorem positive_addAttemptTimes (u p : String) (n : Nat) (m : LoginAttempts) (h : Positive m) :
    Positive (addAttemptTimes u p n m) := by
  induction n generalizing m with
  | zero => exact h
  | succ k ih => exact ih _ (positive_addAttempt m h u p)

theorem positive_mergeOver (a : LoginAttempts) (users providers : List String)
    (m : LoginAttempts) (h : Positive m) : Positive (mergeOver a users providers m) := by
  unfold mergeOver
  induction users generalizing m with
  | nil => exact h
  | cons v vs ih =>
    rw [List.foldl_cons]
    apply ih
    clear ih
    induction providers generalizing m with
    | nil => exact h
    | cons q qs ihq =>
      rw [List.foldl_cons]
      exact ihq _ (positive_addAttemptTimes v q _ m h)

theorem positive_foldl_mergeStep (l : List LoginAttempts) (m : LoginAttempts) (h : Positive m) :
    Positive (l.foldl mergeStep m) := by
  induction l generalizing m with
  | nil => exact h
  | cons a as ih => exact ih _ (positive_mergeOver a _ _ m h)

theorem positive_mergeLoop (l : List LoginAttempts) : Positive (mergeLoop l) :=
  positive_foldl_mergeStep l _ positive_zero

theorem lookupPair_iff_countOf (l : LoginAttempts) (h : Positive l) (u p : String) (c : Int) :
    l.lookupPair u p = some c ↔ l.countOf u p = c ∧ 1 ≤ c := by
  unfold LoginAttempts.countOf
  constructor
  · intro hc
    exact ⟨by rw [hc]; rfl, h u p c hc⟩
  · rintro ⟨h1, h2⟩
    cases hl : l.lookupPair u p with
    | none =>
      rw [hl] at h1
      simp only [Option.getD_none] at h1
      omega
    | some d =>
      rw [hl] at h1
      simp only [Option.getD_some] at h1
      rw [h1]

/-! ## Emission -/

theorem lookupPair_iff_entries (l : LoginAttempts) (u p : String) (c : Int) :
    l.lookupPair u p = some c ↔
      ∃ inner : GoMap Int, (⟨u, inner⟩ : Sigma (fun _ : String => GoMap Int)) ∈ l.outer.entries ∧
        (⟨p, c⟩ : Sigma (fun _ : String => Int)) ∈ inner.entries := by
  unfold LoginAttempts.lookupPair
  constructor
  · intro h
    cases hu : l.outer.lookup u with
    | none => rw [hu] at h; cases h
    | some inner =>
      rw [hu] at h
      exact ⟨inner, AList.mem_lookup_iff.1 (Option.mem_def.2 hu), AList.mem_lookup_iff.1 (Option.mem_def.2 h)⟩
  · rintro ⟨inner, h1, h2⟩
    have e1 : l.outer.lookup u = some inner := Option.mem_def.1 (AList.mem_lookup_iff.2 h1)
    have e2 : inner.lookup p = some c := Option.mem_def.1 (AList.mem_lookup_iff.2 h2)
    rw [e1]
    exact e2

theorem mem_sendMetrics (d : Desc) (l : LoginAttempts) (m : Metric) :
    m ∈ sendMetrics d l ↔
      ∃ u p c, l.lookupPair u p = some c ∧ m = ⟨d, c, [u, p]⟩ := by
  unfold sendMetrics
  simp only [List.mem_flatMap, List.mem_map]
  constructor
  · rintro ⟨⟨u, inner⟩, hu, ⟨p, c⟩, hp, rfl⟩
    exact ⟨u, p, c, (lookupPair_iff_entries l u p c).2 ⟨inner, hu, hp⟩, rfl⟩
  · rintro ⟨u, p, c, h, rfl⟩
    obtain ⟨inner, hu, hp⟩ := (lookupPair_iff_entries l u p c).1 h
    exact ⟨⟨u, inner⟩, hu, ⟨p, c⟩, hp, rfl⟩

theorem labelValues_sendMetrics (d : Desc) (l : LoginAttempts) :
    (sendMetrics d l).map Metric.labelValues =
      l.outer.entries.flatMap (fun e => e.2.keys.map (fun k => [e.1, k])) := by
  unfold sendMetrics
  rw [List.map_flatMap]
  congr 1
  funext e
  simp [AList.keys, List.keys, List.map_map, Function.comp_def]

theorem nodup_labelValues_sendMetrics (d : Desc) (l : LoginAttempts) :
    ((sendMetrics d l).map Metric.labelValues).Nodup := by
  rw [labelValues_sendMetrics, List.nodup_flatMap]
  constructor
  · intro e _
    refine List.Nodup.map ?_ e.2.keys_nodup
    intro a b hab
    simpa using hab
  · refine List.Pairwise.imp ?_ l.outer.nodupKeys.pairwise_ne
    intro e1 e2 hne
    simp only [Function.onFun]
    rw [List.disjoint_left]
    intro x h1 h2
    simp only [List.mem_map] at h1 h2
    obtain ⟨k1, _, rfl⟩ := h1
    obtain ⟨k2, _, hk⟩ := h2
    simp only [List.cons.injEq, and_true] at hk
    exact hne hk.1.symm

theorem countP_eq_of_nodup_map {α β : Type} [DecidableEq β] (f : α → β) (l : List α)
    (h : (l.map f).Nodup) (b : β) :
    l.countP (fun a => decide (f a = b)) = if b ∈ l.map f then 1 else 0 := by
  induction l with
  | nil => simp
  | cons a as ih =>
    rw [List.map_cons, List.nodup_cons] at h
    rw [List.countP_cons, ih h.2]
    by_cases hab : f a = b
    · subst hab
      simp [h.1]
    · have hba : ¬ b = f a := fun e => hab e.symm
      simp [hab, hba]

theorem countP_labelValues_sendMetrics (d : Desc) (l : LoginAttempts) (u p : String) :
    (sendMetrics d l).countP (fun m => decide (m.labelValues = [u, p])) =
      if (l.lookupPair u p).isSome then 1 else 0 := by
  rw [countP_eq_of_nodup_map Metric.labelValues _ (nodup_labelValues_sendMetrics d l)]
  have key : [u, p] ∈ (sendMetrics d l).map Metric.labelValues ↔ (l.lookupPair u p).isSome := by
    rw [List.mem_map]
    constructor
    · rintro ⟨m, hm, hl⟩
      obtain ⟨u1, p1, c, hc, rfl⟩ := (mem_sendMetrics d l m).1 hm
      simp only [List.cons.injEq, and_true] at hl
      obtain ⟨rfl, rfl⟩ := hl
      rw [hc]; rfl
    · intro h
      obtain ⟨c, hc⟩ := Option.isSome_iff_exists.1 h
      exact ⟨⟨d, c, [u, p]⟩, (mem_sendMetrics d l _).2 ⟨u, p, c, hc, rfl⟩, rfl⟩
  by_cases h : (l.lookupPair u p).isSome
  · rw [if_pos (key.2 h), if_pos h]
  · rw [if_neg (fun hh => h (key.1 hh)), if_neg h]

theorem nodup_sendMetrics (d : Desc) (l : LoginAttempts) : (sendMetrics d l).Nodup :=
  List.Nodup.of_map _ (nodup_labelValues_sendMetrics d l)

theorem value_pos_of_mem_push (attemptsCh : List LoginAttempts) (d : Desc) (m : Metric)
    (hm : m ∈ pushLoginAttemptsIntoMetricsChannel attemptsCh d) : 1 ≤ m.value := by
  obtain ⟨u, p, c, hc, rfl⟩ := (mem_sendMetrics d _ m).1 hm
  exact positive_mergeLoop attemptsCh u p c hc

/-! ## Order of arrival -/

theorem sum_contribution_perm (l1 l2 : List LoginAttempts) (h : l1.Perm l2) (u p : String) :
    (l1.map (fun a => contribution a u p)).sum = (l2.map (fun a => contribution a u p)).sum :=
  (h.map _).sum_eq

theorem lookupPair_mergeLoop_perm (l1 l2 : List LoginAttempts) (h : l1.Perm l2) (u p : String) :
    (mergeLoop l1).lookupPair u p = (mergeLoop l2).lookupPair u p := by
  have hc : (mergeLoop l1).countOf u p = (mergeLoop l2).countOf u p := by
    rw [countOf_mergeLoop, countOf_mergeLoop, sum_contribution_perm l1 l2 h]
  apply Option.ext
  intro c
  rw [Option.mem_def, Option.mem_def,
    lookupPair_iff_countOf _ (positive_mergeLoop l1), lookupPair_iff_countOf _ (positive_mergeLoop l2), hc]

/-- C6: the merged counts do not depend on the order in which the partial
aggregates arrive: for a permutation of the received list, every pair has the
same count (and the same stored entry), and the same observations are sent. -/
theorem mergeLoop_arrival_order_irrelevant (l1 l2 : List LoginAttempts) (h : l1.Perm l2)
    (d : Desc) :
    (∀ u p, (mergeLoop l1).countOf u p = (mergeLoop l2).countOf u p) ∧
    (∀ u p, (mergeLoop l1).lookupPair u p = (mergeLoop l2).lookupPair u p) ∧
    (∀ m, m ∈ pushLoginAttemptsIntoMetricsChannel l1 d ↔
      m ∈ pushLoginAttemptsIntoMetricsChannel l2 d) ∧
    (pushLoginAttemptsIntoMetricsChannel l1 d).Perm (pushLoginAttemptsIntoMetricsChannel l2 d) := by
  have hmem : ∀ m, m ∈ pushLoginAttemptsIntoMetricsChannel l1 d ↔
      m ∈ pushLoginAttemptsIntoMetricsChannel l2 d := by
    intro m
    unfold pushLoginAttemptsIntoMetricsChannel
    rw [mem_sendMetrics, mem_sendMetrics]
    simp only [lookupPair_mergeLoop_perm l1 l2 h]
  refine ⟨?_, lookupPair_mergeLoop_perm l1 l2 h, hmem, ?_⟩
  · intro u p
    rw [countOf_mergeLoop, countOf_mergeLoop, sum_contribution_perm l1 l2 h]
  · exact (List.perm_ext_iff_of_nodup (nodup_sendMetrics d _) (nodup_sendMetrics d _)).2 hmem

theorem mergeLoop_arrival_order_irrelevant_witness :
    (mergeLoop [LoginAttempts.zero.addAttempt "a" "x", LoginAttempts.zero.addAttempt "b" "x"]).countOf
        "a" "x" =
      (mergeLoop [LoginAttempts.zero.addAttempt "b" "x", LoginAttempts.zero.addAttempt "a" "x"]).countOf
        "a" "x" :=
  (mergeLoop_arrival_order_irrelevant
    [LoginAttempts.zero.addAttempt "a" "x", LoginAttempts.zero.addAttempt "b" "x"]
    [LoginAttempts.zero.addAttempt "b" "x", LoginAttempts.zero.addAttempt "a" "x"]
    (List.Perm.swap _ _ _) loginsSucceededDesc).1 "a" "x"

/-! ## Emission of the merged aggregate -/

/-- C4: for every received sequence, the emission phase sends, for each pair
stored in the merged aggregate, exactly one observation; it carries the
descriptor, the pair's merged count as value and (subject, provider) as label
values in that order. Every observation sent belongs to a stored pair, and
its value is at least 1, so no zero-valued observation is sent. -/
theorem emission_one_observation_per_stored_pair (attemptsCh : List LoginAttempts) (d : Desc) :
    (∀ u p c, (mergeLoop attemptsCh).lookupPair u p = some c →
      c = (mergeLoop attemptsCh).countOf u p ∧
      (⟨d, c, [u, p]⟩ : Metric) ∈ pushLoginAttemptsIntoMetricsChannel attemptsCh d ∧
      (pushLoginAttemptsIntoMetricsChannel attemptsCh d).countP
        (fun m => decide (m.labelValues = [u, p])) = 1) ∧
    (∀ m, m ∈ pushLoginAttemptsIntoMetricsChannel attemptsCh d →
      ∃ u p, (mergeLoop attemptsCh).lookupPair u p = some m.value ∧
        m = ⟨d, (mergeLoop attemptsCh).countOf u p, [u, p]⟩) ∧
    (∀ u p, (mergeLoop attemptsCh).lookupPair u p = none →
      ∀ m, m ∈ pushLoginAttemptsIntoMetricsChannel attemptsCh d → m.labelValues ≠ [u, p]) ∧
    (∀ m, m ∈ pushLoginAttemptsIntoMetricsChannel attemptsCh d → 1 ≤ m.value) := by
  refine ⟨?_, ?_, ?_, fun m hm => value_pos_of_mem_push attemptsCh d m hm⟩
  · intro u p c hc
    refine ⟨?_, (mem_sendMetrics d _ _).2 ⟨u, p, c, hc, rfl⟩, ?_⟩
    · simp [LoginAttempts.countOf, hc]
    · unfold pushLoginAttemptsIntoMetricsChannel
      rw [countP_labelValues_sendMetrics, hc]
      rfl
  · intro m hm
    obtain ⟨u, p, c, hc, rfl⟩ := (mem_sendMetrics d _ m).1 hm
    exact ⟨u, p, hc, by simp [LoginAttempts.countOf, hc]⟩
  · intro u p hnone m hm hl
    obtain ⟨u1, p1, c, hc, rfl⟩ := (mem_sendMetrics d _ m).1 hm
    simp only [List.cons.injEq, and_true] at hl
    obtain ⟨rfl, rfl⟩ := hl
    rw [hnone] at hc
    cases hc

theorem emission_one_observation_per_stored_pair_witness :
    (⟨loginsFailedDesc, 2, ["a", "x"]⟩ : Metric) ∈
      pushLoginAttemptsIntoMetricsChannel
        [LoginAttempts.zero.addAttempt "a" "x", LoginAttempts.zero.addAttempt "a" "x"]
        loginsFailedDesc :=
  ((emission_one_observation_per_stored_pair
    [LoginAttempts.zero.addAttempt "a" "x", LoginAttempts.zero.addAttempt "a" "x"]
    loginsFailedDesc).1 "a" "x" 2 (by decide)).2.1

/-- C5 (counterexample): with the merged aggregate holding (a, x) and (b, y),
subject a and provider y are both present, yet no observation is sent for the
combination (a, y). -/
theorem emission_cross_join_fails :
    "a" ∈ (mergeLoop [LoginAttempts.zero.addAttempt "a" "x",
            LoginAttempts.zero.addAttempt "b" "y"]).getUserList ∧
    "y" ∈ (mergeLoop [LoginAttempts.zero.addAttempt "a" "x",
            LoginAttempts.zero.addAttempt "b" "y"]).getProviderList ∧
    ∀ m ∈ pushLoginAttemptsIntoMetricsChannel
        [LoginAttempts.zero.addAttempt "a" "x", LoginAttempts.zero.addAttempt "b" "y"]
        loginsSucceededDesc,
      m.labelValues ≠ ["a", "y"] := by
  decide

/-- C5 (amended): emission follows the nested maps, not a cross join. For a
subject and a provider that are both present in the merged aggregate, the
number of observations sent for that combination is 1 when the provider is
stored under that subject and 0 when the two never co-occurred; an
observation sent for the combination never has value 0. -/
theorem emission_restricted_to_cooccurring_pairs (attemptsCh : List LoginAttempts) (d : Desc)
    (u p : String) (_hu : u ∈ (mergeLoop attemptsCh).getUserList)
    (_hp : p ∈ (mergeLoop attemptsCh).getProviderList) :
    (pushLoginAttemptsIntoMetricsChannel attemptsCh d).countP
        (fun m => decide (m.labelValues = [u, p])) =
      (if ((mergeLoop attemptsCh).lookupPair u p).isSome then 1 else 0) ∧
    ∀ m, m ∈ pushLoginAttemptsIntoMetricsChannel attemptsCh d → m.labelValues = [u, p] →
      m.value ≠ 0 := by
  refine ⟨countP_labelValues_sendMetrics d _ u p, ?_⟩
  intro m hm _
  have := value_pos_of_mem_push attemptsCh d m hm
  omega

theorem emission_restricted_to_cooccurring_pairs_witness :
    (pushLoginAttemptsIntoMetricsChannel
        [LoginAttempts.zero.addAttempt "a" "x", LoginAttempts.zero.addAttempt "b" "y"]
        loginsSucceededDesc).countP (fun m => decide (m.labelValues = ["a", "y"])) =
      (if ((mergeLoop [LoginAttempts.zero.addAttempt "a" "x",
            LoginAttempts.zero.addAttempt "b" "y"]).lookupPair "a" "y").isSome then 1 else 0) :=
  (emission_restricted_to_cooccurring_pairs
    [LoginAttempts.zero.addAttempt "a" "x", LoginAttempts.zero.addAttempt "b" "y"]
    loginsSucceededDesc "a" "y" (by decide) (by decide)).1

/-! ## `addAttempt`, claim form -/

/-- C9: for every aggregate (the nil map included) and every (subject,
provider), `addAttempt` stores for that pair its previous count plus 1 (so 1
when the pair or the subject was absent) and leaves the entry and count of
every other pair unchanged; two calls with the same pair on the empty
aggregate give 2, and two calls with different providers for one subject give
each provider 1. -/
theorem addAttempt_increments_exactly_one_pair (l : LoginAttempts) (u p : String) :
    (l.addAttempt u p).lookupPair u p = some (l.countOf u p + 1) ∧
    (l.addAttempt u p).countOf u p = l.countOf u p + 1 ∧
    (l.lookupPair u p = none → (l.addAttempt u p).countOf u p = 1) ∧
    (∀ u1 p1, ¬ (u1 = u ∧ p1 = p) →
      (l.addAttempt u p).lookupPair u1 p1 = l.lookupPair u1 p1 ∧
      (l.addAttempt u p).countOf u1 p1 = l.countOf u1 p1) ∧
    ((LoginAttempts.mk none).addAttempt u p).countOf u p = 1 ∧
    (((LoginAttempts.mk none).addAttempt u p).addAttempt u p).countOf u p = 2 ∧
    (∀ q, q ≠ p →
      (((LoginAttempts.mk none).addAttempt u p).addAttempt u q).countOf u p = 1 ∧
      (((LoginAttempts.mk none).addAttempt u p).addAttempt u q).countOf u q = 1) := by
  refine ⟨lookupPair_addAttempt_self l u p, countOf_addAttempt_self l u p, ?_, ?_, ?_, ?_, ?_⟩
  · intro h
    rw [countOf_addAttempt_self, LoginAttempts.countOf, h]
    rfl
  · intro u1 p1 h
    exact ⟨lookupPair_addAttempt_other l u p u1 p1 h, countOf_addAttempt_other l u p u1 p1 h⟩
  · rw [countOf_addAttempt_self]
    rfl
  · rw [countOf_addAttempt_self, countOf_addAttempt_self]
    rfl
  · intro q hq
    constructor
    · rw [countOf_addAttempt_other _ u q u p (fun h => hq h.2.symm), countOf_addAttempt_self]
      rfl
    · rw [countOf_addAttempt_self, countOf_addAttempt_other _ u p u q (fun h => hq h.2)]
      rfl

theorem addAttempt_increments_exactly_one_pair_witness :
    (((LoginAttempts.mk none).addAttempt "alice" "htpasswd").addAttempt "alice" "github").countOf
        "alice" "htpasswd" = 1 ∧
    (((LoginAttempts.mk none).addAttempt "alice" "htpasswd").addAttempt "alice" "github").countOf
        "alice" "github" = 1 :=
  (addAttempt_increments_exactly_one_pair (LoginAttempts.mk none) "alice" "htpasswd").2.2.2.2.2.2
    "github" (by decide)

/-! ## Merging single increments -/

theorem lookup_singleton_self {V : Type} (k : String) (v : V) :
    AList.lookup k (AList.singleton k v : GoMap V) = some v := by
  rw [← AList.insert_empty, AList.lookup_insert]

theorem addAttempt_zero_eq (u p : String) :
    LoginAttempts.zero.addAttempt u p = ⟨some (AList.singleton u (AList.singleton p 1))⟩ := by
  simp [LoginAttempts.addAttempt, LoginAttempts.zero, lookup_singleton_self]

theorem contribution_single (u p u1 p1 : String) :
    contribution (LoginAttempts.zero.addAttempt u p) u1 p1 =
      if u1 = u ∧ p1 = p then 1 else 0 := by
  have hc := countOf_addAttempt_self LoginAttempts.zero u p
  rw [countOf_zero, zero_add] at hc
  unfold contribution
  rw [addAttempt_zero_eq] at hc ⊢
  simp only [LoginAttempts.getUserList, LoginAttempts.getProviderList, LoginAttempts.outer,
    AList.keys_singleton, AList.singleton_entries, List.flatMap_cons, List.flatMap_nil,
    List.append_nil]
  by_cases h : u1 = u ∧ p1 = p
  · obtain ⟨rfl, rfl⟩ := h
    rw [hc]
    simp
  · rw [if_neg h]
    by_cases hu : u1 = u
    · have hp : ¬ p1 = p := fun e => h ⟨hu, e⟩
      have hp1 : ¬ p = p1 := fun e => hp e.symm
      simp [List.count_cons, hp1]
    · have hu1 : ¬ u = u1 := fun e => hu e.symm
      simp [List.count_cons, hu1]

/-- C8: merging N partial aggregates, each a single `addAttempt(subject,
provider)` on an empty aggregate, gives that pair the count N, and the merged
aggregate stores no other pair. -/
theorem merge_single_increments (N : Nat) (u p : String) :
    (mergeLoop (List.replicate N (LoginAttempts.zero.addAttempt u p))).countOf u p = (N : Int) ∧
    (∀ u1 p1 c,
      (mergeLoop (List.replicate N (LoginAttempts.zero.addAttempt u p))).lookupPair u1 p1 = some c →
      u1 = u ∧ p1 = p) := by
  have hcount : ∀ u1 p1,
      (mergeLoop (List.replicate N (LoginAttempts.zero.addAttempt u p))).countOf u1 p1 =
        if u1 = u ∧ p1 = p then (N : Int) else 0 := by
    intro u1 p1
    rw [countOf_mergeLoop, List.map_replicate, List.sum_replicate, contribution_single]
    by_cases h : u1 = u ∧ p1 = p
    · simp [h]
    · simp [h]
  constructor
  · rw [hcount]
    simp
  · intro u1 p1 c hc
    by_contra hne
    have h1 := (lookupPair_iff_countOf _ (positive_mergeLoop _) u1 p1 c).1 hc
    rw [hcount, if_neg hne] at h1
    omega

/-! ## The defect of the merge loop: a provider shared by two subjects -/

/-- C1 (evaluation at the failing input): one partial aggregate in which the
subjects `ldap` and `htpasswd` each hold provider `alice` once. The provider
list is `[alice, alice]`, so the merge loop adds each pair twice: the merged
count is 2 where the sum over the partials is 1. The same happens from the
log text of one pod. -/
theorem merge_counts_shared_provider_twice :
    ((LoginAttempts.zero.addAttempt "ldap" "alice").addAttempt "htpasswd" "alice").countOf
        "ldap" "alice" = 1 ∧
    ((LoginAttempts.zero.addAttempt "ldap" "alice").addAttempt "htpasswd" "alice").getProviderList
        = ["alice", "alice"] ∧
    (mergeLoop [(LoginAttempts.zero.addAttempt "ldap" "alice").addAttempt "htpasswd" "alice"]).countOf
        "ldap" "alice" = 2 ∧
    (Scrape [some ["Login with provider \"ldap\" succeeded for \"alice\"",
                   "Login with provider \"htpasswd\" succeeded for \"alice\""]]).map
        (fun sent => sent.map Metric.value) = some [2, 2] := by
  decide

/-- C7 (evaluation at the failing input): with A the empty aggregate and B the
aggregate holding (ldap, alice) and (htpasswd, alice) once each, one merge
step gives merge(A, B) the count 2 and merge(B, A) the count 1 for
(ldap, alice), and merge(merge(A, A), B) the count 2 where
merge(A, merge(A, B)) has 4. -/
theorem mergeStep_not_commutative_not_associative :
    (mergeStep LoginAttempts.zero
        ((LoginAttempts.zero.addAttempt "ldap" "alice").addAttempt "htpasswd" "alice")).countOf
        "ldap" "alice" = 2 ∧
    (mergeStep ((LoginAttempts.zero.addAttempt "ldap" "alice").addAttempt "htpasswd" "alice")
        LoginAttempts.zero).countOf "ldap" "alice" = 1 ∧
    (mergeStep (mergeStep LoginAttempts.zero LoginAttempts.zero)
        ((LoginAttempts.zero.addAttempt "ldap" "alice").addAttempt "htpasswd" "alice")).countOf
        "ldap" "alice" = 2 ∧
    (mergeStep LoginAttempts.zero (mergeStep LoginAttempts.zero
        ((LoginAttempts.zero.addAttempt "ldap" "alice").addAttempt "htpasswd" "alice"))).countOf
        "ldap" "alice" = 4 := by
  decide

/-! ## The matcher on a line of the form `Login with provider "P" succeeded for "U"` -/

theorem lazyLoop_of_some (k : List Char → Option MatchResult) (s : List Char) (r : MatchResult)
    (h : k s = some r) : lazyLoop k s = some ([], r) := by
  cases s with
  | nil => simp [lazyLoop, h]
  | cons x t => simp [lazyLoop, h]

theorem lazyLoop_skip (c : Char) (r : List Inst) (X s : List Char)
    (hX : ∀ x ∈ X, x ≠ '\n' ∧ x ≠ c) :
    lazyLoop (matchHere (Inst.char c :: r)) (X ++ s) =
      (lazyLoop (matchHere (Inst.char c :: r)) s).map (fun cr => (X ++ cr.1, cr.2)) := by
  induction X with
  | nil => simp
  | cons x X1 ih =>
    have hx := hX x (List.mem_cons_self _ _)
    have ih1 := ih (fun y hy => hX y (List.mem_cons_of_mem _ hy))
    rw [List.cons_append, lazyLoop]
    have hk : matchHere (Inst.char c :: r) (x :: (X1 ++ s)) = none := by
      simp [matchHere, hx.2]
    rw [hk]
    simp only [ne_eq, hx.1, not_false_eq_true, if_true]
    rw [ih1, Option.map_map]
    rfl

theorem not_special_of_isAlphanum (c : Char) (h : c.isAlphanum = true) :
    c ≠ '\n' ∧ c ≠ '"' ∧ c ≠ ' ' ∧ c ≠ ']' := by
  refine ⟨?_, ?_, ?_, ?_⟩ <;> intro e <;> subst e <;> revert h <;> decide

theorem mustCompile_successHtpasswd :
    MustCompile loginSuccessHtpasswdRegex =
      some ("Login with provider \"".data.map Inst.char ++
        (Inst.lazyCap :: ("\" succeeded for \"".data.map Inst.char ++
          [Inst.lazyCap, Inst.char '"']))) := by
  decide

theorem mustCompile_failHtpasswd :
    MustCompile loginFailHtpasswdRegex =
      some (("Login with provider \"".data.map Inst.char ++ [Inst.lazyCap, Inst.char '"']) ++
        ([' ', 'f', 'a'].map Inst.char ++
          ("iled for \"".data.map Inst.char ++ [Inst.lazyCap, Inst.char '"']))) := by
  decide

theorem mustCompile_successOAuth :
    MustCompile loginSuccessOAuthRegex =
      some ([Inst.anyStar] ++ ([']'].map Inst.char ++
        (Inst.char ' ' :: Inst.lazyCap :: (" authentication succeeded:".data.map Inst.char ++
          (Inst.anyStar :: ("\x7bName:\"".data.map Inst.char ++
            (Inst.lazyCap :: Inst.char '"' :: Inst.char ',' :: [Inst.anyStar]))))))) := by
  decide

theorem mustCompile_failOAuth :
    MustCompile loginFailOAuthRegex =
      some ([Inst.anyStar] ++ ([']'].map Inst.char ++
        (Inst.char ' ' :: Inst.lazyCap :: (" authentication failed:".data.map Inst.char ++
          (Inst.anyStar :: ("\x7bName:\"".data.map Inst.char ++
            (Inst.lazyCap :: Inst.char '"' :: Inst.char ',' :: [Inst.anyStar]))))))) := by
  decide

theorem matchHere_literals (ws : List Char) (r : List Inst) (s : List Char) :
    matchHere (ws.map Inst.char ++ r) (ws ++ s) = matchHere r s := by
  induction ws with
  | nil => rfl
  | cons w ws1 ih => simp [matchHere, ih]

theorem matchHere_successHtpasswd (P U : List Char)
    (hP : ∀ x ∈ P, x ≠ '\n' ∧ x ≠ '"') (hU : ∀ x ∈ U, x ≠ '\n' ∧ x ≠ '"') :
    matchHere ("Login with provider \"".data.map Inst.char ++
        (Inst.lazyCap :: ("\" succeeded for \"".data.map Inst.char ++
          [Inst.lazyCap, Inst.char '"'])))
      ("Login with provider \"".data ++ (P ++ ("\" succeeded for \"".data ++ (U ++ ['"'])))) =
      some ([P, U], []) := by
  rw [matchHere_literals]
  have h2 : matchHere [Inst.lazyCap, Inst.char '"'] (U ++ ['"']) = some ([U], []) := by
    rw [matchHere, lazyLoop_skip '"' [] U ['"'] hU,
      lazyLoop_of_some _ ['"'] ([], []) (by simp [matchHere])]
    simp
  have h1 : matchHere (Inst.char '"' :: (" succeeded for \"".data.map Inst.char ++
      [Inst.lazyCap, Inst.char '"'])) ("\" succeeded for \"".data ++ (U ++ ['"'])) =
      some ([U], []) := by
    rw [← h2]
    exact matchHere_literals "\" succeeded for \"".data _ _
  rw [matchHere]
  have e : "\" succeeded for \"".data.map Inst.char ++ [Inst.lazyCap, Inst.char '"'] =
      Inst.char '"' :: (" succeeded for \"".data.map Inst.char ++
        [Inst.lazyCap, Inst.char '"']) := rfl
  rw [e, lazyLoop_skip '"' _ P _ hP, lazyLoop_of_some _ _ _ h1]
  simp

theorem search_of_match (re : List Inst) (s : List Char) (i : Nat) (caps : List (List Char))
    (h : matchHere re s = some (caps, [])) (hs : s ≠ []) :
    search re s i = some (i, i + s.length, caps) := by
  cases s with
  | nil => exact absurd rfl hs
  | cons x t => simp [search, h]

theorem search_nil_of_none (re : List Inst) (i : Nat) (h : matchHere re [] = none) :
    search re [] i = none := by
  simp [search, h]

/-- A pattern that matches the whole non-empty line at position 0 and does not
match the empty string yields exactly that one match. -/
theorem allMatches_whole_line (re : List Inst) (s : List Char) (n : Nat)
    (caps : List (List Char)) (h : matchHere re s = some (caps, [])) (hs : s ≠ [])
    (hnil : matchHere re [] = none) :
    allMatches re s (n + 2) 0 none = some [s :: caps] := by
  have hlen : s.length ≠ 0 := fun e => hs (List.length_eq_zero.1 e)
  have h2 : allMatches re s (n + 1) s.length (some s.length) = some [] := by
    rw [allMatches]
    simp [doExecute, search_nil_of_none re _ hnil]
  rw [allMatches]
  simp only [doExecute, List.drop_zero, search_of_match re s 0 caps h hs, Nat.zero_add]
  simp [hlen, h2]

theorem findAll_successHtpasswd (P U : String)
    (hP : ∀ x ∈ P.data, x ≠ '\n' ∧ x ≠ '"') (hU : ∀ x ∈ U.data, x ≠ '\n' ∧ x ≠ '"') :
    FindAllStringSubmatch ("Login with provider \"".data.map Inst.char ++
        (Inst.lazyCap :: ("\" succeeded for \"".data.map Inst.char ++
          [Inst.lazyCap, Inst.char '"'])))
      ("Login with provider \"" ++ P ++ "\" succeeded for \"" ++ U ++ "\"") =
      some [["Login with provider \"" ++ P ++ "\" succeeded for \"" ++ U ++ "\"", P, U]] := by
  have hd : ("Login with provider \"" ++ P ++ "\" succeeded for \"" ++ U ++ "\"").data =
      "Login with provider \"".data ++ (P.data ++ ("\" succeeded for \"".data ++ (U.data ++ ['"']))) := by
    simp only [String.data_append, List.append_assoc]
  unfold FindAllStringSubmatch
  rw [hd, allMatches_whole_line _ _ _ [P.data, U.data]
    (matchHere_successHtpasswd P.data U.data hP hU) (by simp [String.data]) (by decide)]
  simp only [Option.map_some', List.map_cons, List.map_nil]
  rw [← hd]

/-! ## Patterns that cannot match: a literal run of the pattern must occur in the line -/

theorem greedyLoop_some (k : List Char → Option MatchResult) (s : List Char) (x : MatchResult)
    (h : greedyLoop k s = some x) : ∃ t, t <:+ s ∧ k t = some x := by
  induction s with
  | nil => exact ⟨[], List.suffix_refl _, by simpa [greedyLoop] using h⟩
  | cons a s1 ih =>
    rw [greedyLoop] at h
    by_cases ha : a ≠ '\n'
    · rw [if_pos ha] at h
      cases hg : greedyLoop k s1 with
      | none =>
        rw [hg] at h
        exact ⟨a :: s1, List.suffix_refl _, h⟩
      | some y =>
        rw [hg] at h
        simp only [Option.some.injEq] at h
        subst h
        obtain ⟨t, ht, hk⟩ := ih hg
        exact ⟨t, ht.trans (List.suffix_cons a s1), hk⟩
    · rw [if_neg ha] at h
      exact ⟨a :: s1, List.suffix_refl _, h⟩

theorem lazyLoop_some (k : List Char → Option MatchResult) (s : List Char)
    (cx : List Char × MatchResult) (h : lazyLoop k s = some cx) :
    ∃ t, t <:+ s ∧ k t = some cx.2 := by
  induction s generalizing cx with
  | nil =>
    rw [lazyLoop] at h
    cases hk : k [] with
    | none => rw [hk] at h; cases h
    | some r =>
      rw [hk] at h
      simp only [Option.map_some', Option.some.injEq] at h
      subst h
      exact ⟨[], List.suffix_refl _, hk⟩
  | cons a s1 ih =>
    rw [lazyLoop] at h
    cases hk : k (a :: s1) with
    | some r =>
      rw [hk] at h
      simp only [Option.some.injEq] at h
      subst h
      exact ⟨a :: s1, List.suffix_refl _, hk⟩
    | none =>
      rw [hk] at h
      by_cases ha : a ≠ '\n'
      · rw [if_pos ha] at h
        cases hl : lazyLoop k s1 with
        | none => rw [hl] at h; cases h
        | some cy =>
          rw [hl] at h
          simp only [Option.map_some', Option.some.injEq] at h
          subst h
          obtain ⟨t, ht, hkt⟩ := ih cy hl
          exact ⟨t, ht.trans (List.suffix_cons a s1), hkt⟩
      · rw [if_neg ha] at h
        cases h

theorem matchHere_literals_some (ws : List Char) (r : List Inst) (s : List Char)
    (x : MatchResult) (h : matchHere (ws.map Inst.char ++ r) s = some x) : ws <+: s := by
  induction ws generalizing s with
  | nil => exact List.nil_prefix
  | cons w ws1 ih =>
    cases s with
    | nil => simp [matchHere] at h
    | cons a s1 =>
      simp only [List.map_cons, List.cons_append, matchHere] at h
      by_cases haw : a = w
      · rw [if_pos haw] at h
        subst haw
        exact (List.prefix_cons_inj a).2 (ih s1 h)
      · rw [if_neg haw] at h
        cases h

/-- A successful match at the head of `s` means that every run of literal
characters of the pattern occurs, contiguously, somewhere in `s`. -/
theorem matchHere_some_occurs (p1 : List Inst) (ws : List Char) (r : List Inst)
    (s : List Char) (x : MatchResult)
    (h : matchHere (p1 ++ (ws.map Inst.char ++ r)) s = some x) : ws <:+: s := by
  induction p1 generalizing s x with
  | nil => exact (matchHere_literals_some ws r s x h).isInfix
  | cons i p2 ih =>
    cases i with
    | char c =>
      cases s with
      | nil => simp [matchHere] at h
      | cons a s1 =>
        simp only [List.cons_append, matchHere] at h
        by_cases hac : a = c
        · rw [if_pos hac] at h
          exact List.infix_cons (ih s1 x h)
        · rw [if_neg hac] at h
          cases h
    | anyStar =>
      have h1 : greedyLoop (matchHere (p2 ++ (ws.map Inst.char ++ r))) s = some x := h
      obtain ⟨t, ht, hk⟩ := greedyLoop_some _ s x h1
      exact (ih t x hk).trans ht.isInfix
    | lazyCap =>
      have h1 : (lazyLoop (matchHere (p2 ++ (ws.map Inst.char ++ r))) s).map
          (fun cr => (cr.1 :: cr.2.1, cr.2.2)) = some x := h
      cases hl : lazyLoop (matchHere (p2 ++ (ws.map Inst.char ++ r))) s with
      | none => rw [hl] at h1; cases h1
      | some cx =>
        obtain ⟨t, ht, hk⟩ := lazyLoop_some _ s cx hl
        exact (ih t cx.2 hk).trans ht.isInfix

theorem search_none_of_not_occurs (p1 : List Inst) (ws : List Char) (r : List Inst)
    (s : List Char) (i : Nat) (h : ¬ ws <:+: s) :
    search (p1 ++ (ws.map Inst.char ++ r)) s i = none := by
  induction s generalizing i with
  | nil =>
    rw [search]
    cases hm : matchHere (p1 ++ (ws.map Inst.char ++ r)) [] with
    | none => rfl
    | some x => exact absurd (matchHere_some_occurs p1 ws r [] x hm) h
  | cons a s1 ih =>
    rw [search]
    cases hm : matchHere (p1 ++ (ws.map Inst.char ++ r)) (a :: s1) with
    | none => exact ih (i + 1) (fun hh => h (List.infix_cons hh))
    | some x => exact absurd (matchHere_some_occurs p1 ws r _ x hm) h

theorem findAll_none_of_not_occurs (p1 : List Inst) (ws : List Char) (r : List Inst)
    (line : String) (h : ¬ ws <:+: line.data) :
    FindAllStringSubmatch (p1 ++ (ws.map Inst.char ++ r)) line = some [] := by
  unfold FindAllStringSubmatch
  rw [allMatches]
  simp [doExecute, search_none_of_not_occurs p1 ws r line.data 0 h]

theorem occurs_skip (w : Char) (ws X Y : List Char) (hX : ∀ x ∈ X, x ≠ w) :
    (w :: ws) <:+: (X ++ Y) ↔ (w :: ws) <:+: Y := by
  induction X with
  | nil => rfl
  | cons a X1 ih =>
    have ha := hX a (List.mem_cons_self _ _)
    rw [List.cons_append, List.infix_cons_iff, List.cons_prefix_cons,
      ih (fun y hy => hX y (List.mem_cons_of_mem _ hy))]
    constructor
    · rintro (⟨e, _⟩ | hh)
      · exact absurd e.symm ha
      · exact hh
    · exact fun hh => Or.inr hh

theorem data_login_with_provider :
    "Login with provider \"".data = ['L', 'o', 'g', 'i', 'n', ' ', 'w', 'i', 't', 'h', ' ', 'p', 'r', 'o', 'v', 'i', 'd', 'e', 'r', ' ', '"'] := rfl

theorem data_succeeded_for :
    "\" succeeded for \"".data = ['"', ' ', 's', 'u', 'c', 'c', 'e', 'e', 'd', 'e', 'd', ' ', 'f', 'o', 'r', ' ', '"'] := rfl

theorem not_occurs_space_f_a (P U : List Char) (hP : ∀ x ∈ P, x ≠ ' ') (hU : ∀ x ∈ U, x ≠ ' ') :
    ¬ [' ', 'f', 'a'] <:+:
      ("Login with provider \"".data ++ (P ++ ("\" succeeded for \"".data ++ (U ++ ['"'])))) := by
  rw [data_login_with_provider, data_succeeded_for]
  simp [List.infix_cons_iff, occurs_skip ' ' _ P _ hP, occurs_skip ' ' _ U _ hU]

theorem not_occurs_bracket (P U : List Char) (hP : ∀ x ∈ P, x ≠ ']') (hU : ∀ x ∈ U, x ≠ ']') :
    ¬ [']'] <:+:
      ("Login with provider \"".data ++ (P ++ ("\" succeeded for \"".data ++ (U ++ ['"'])))) := by
  rw [data_login_with_provider, data_succeeded_for]
  simp [List.infix_cons_iff, occurs_skip ']' _ P _ hP, occurs_skip ']' _ U _ hU]

/-! ## One pod whose log is the single line `Login with provider "P" succeeded for "U"` -/

theorem data_succeeded_line (P U : String) :
    ("Login with provider \"" ++ P ++ "\" succeeded for \"" ++ U ++ "\"").data =
      "Login with provider \"".data ++
        (P.data ++ ("\" succeeded for \"".data ++ (U.data ++ ['"']))) := by
  simp only [String.data_append, List.append_assoc]

theorem getLoginMatches_success_line (P U : String)
    (hP : ∀ x ∈ P.data, x ≠ '\n' ∧ x ≠ '"') (hU : ∀ x ∈ U.data, x ≠ '\n' ∧ x ≠ '"') :
    getLoginMatchesByRegex loginSuccessHtpasswdRegex
      ["Login with provider \"" ++ P ++ "\" succeeded for \"" ++ U ++ "\""] =
      some [[P, U]] := by
  unfold getLoginMatchesByRegex
  rw [mustCompile_successHtpasswd]
  simp only [matchLines, findAll_successHtpasswd P U hP hU]
  rfl

theorem getLoginActions_success_line (P U : String)
    (hP : ∀ x ∈ P.data, x ≠ '\n' ∧ x ≠ '"') (hU : ∀ x ∈ U.data, x ≠ '\n' ∧ x ≠ '"') :
    getLoginActions loginSuccessHtpasswdRegex
      ["Login with provider \"" ++ P ++ "\" succeeded for \"" ++ U ++ "\""] =
      some (LoginAttempts.zero.addAttempt P U) := by
  unfold getLoginActions
  rw [getLoginMatches_success_line P U hP hU]
  rfl

theorem getLoginActions_fail_on_success_line (P U : String)
    (hP : ∀ x ∈ P.data, x ≠ ' ') (hU : ∀ x ∈ U.data, x ≠ ' ') :
    getLoginActions loginFailHtpasswdRegex
      ["Login with provider \"" ++ P ++ "\" succeeded for \"" ++ U ++ "\""] =
      some LoginAttempts.zero := by
  unfold getLoginActions getLoginMatchesByRegex
  rw [mustCompile_failHtpasswd]
  simp only [matchLines]
  rw [findAll_none_of_not_occurs _ _ _ _
    (by rw [data_succeeded_line]; exact not_occurs_space_f_a P.data U.data hP hU)]
  rfl

theorem getLoginActions_successOAuth_on_success_line (P U : String)
    (hP : ∀ x ∈ P.data, x ≠ ']') (hU : ∀ x ∈ U.data, x ≠ ']') :
    getLoginActions loginSuccessOAuthRegex
      ["Login with provider \"" ++ P ++ "\" succeeded for \"" ++ U ++ "\""] =
      some LoginAttempts.zero := by
  unfold getLoginActions getLoginMatchesByRegex
  rw [mustCompile_successOAuth]
  simp only [matchLines]
  rw [findAll_none_of_not_occurs _ _ _ _
    (by rw [data_succeeded_line]; exact not_occurs_bracket P.data U.data hP hU)]
  rfl

theorem getLoginActions_failOAuth_on_success_line (P U : String)
    (hP : ∀ x ∈ P.data, x ≠ ']') (hU : ∀ x ∈ U.data, x ≠ ']') :
    getLoginActions loginFailOAuthRegex
      ["Login with provider \"" ++ P ++ "\" succeeded for \"" ++ U ++ "\""] =
      some LoginAttempts.zero := by
  unfold getLoginActions getLoginMatchesByRegex
  rw [mustCompile_failOAuth]
  simp only [matchLines]
  rw [findAll_none_of_not_occurs _ _ _ _
    (by rw [data_succeeded_line]; exact not_occurs_bracket P.data U.data hP hU)]
  rfl

theorem push_single_attempt (P U : String) (d : Desc) :
    pushLoginAttemptsIntoMetricsChannel [LoginAttempts.zero.addAttempt P U, LoginAttempts.zero] d =
      [⟨d, 1, [P, U]⟩] := by
  have h0 : (LoginAttempts.mk none).addAttempt P U =
      ⟨some (AList.singleton P (AList.singleton U 1))⟩ := addAttempt_zero_eq P U
  rw [addAttempt_zero_eq]
  simp [pushLoginAttemptsIntoMetricsChannel, mergeLoop, mergeStep, mergeOver,
    LoginAttempts.getUserList, LoginAttempts.getProviderList, LoginAttempts.outer,
    LoginAttempts.countOf, LoginAttempts.lookupPair, lookup_singleton_self, LoginAttempts.zero,
    addAttemptTimes, sendMetrics, h0]

theorem push_no_attempt (d : Desc) :
    pushLoginAttemptsIntoMetricsChannel [LoginAttempts.zero, LoginAttempts.zero] d = [] := rfl

/-- C2: a scrape cycle over one pod whose log is the single line
`Login with provider "P" succeeded for "U"`, with P and U made of ASCII
letters and digits. The four registered patterns give one partial aggregate
with one attempt and three empty ones; the cycle sends exactly one
observation, on the successful-logins descriptor, with value 1, label `user`
equal to U and label `auth_provider` equal to P, and nothing on the
failed-logins descriptor. -/
theorem scrape_single_succeeded_line (P U : String)
    (hP : ∀ c ∈ P.data, c.isAlphanum = true) (hU : ∀ c ∈ U.data, c.isAlphanum = true) :
    getLoginActions loginSuccessHtpasswdRegex
        ["Login with provider \"" ++ P ++ "\" succeeded for \"" ++ U ++ "\""] =
      some (LoginAttempts.zero.addAttempt P U) ∧
    getLoginActions loginSuccessOAuthRegex
        ["Login with provider \"" ++ P ++ "\" succeeded for \"" ++ U ++ "\""] =
      some LoginAttempts.zero ∧
    getLoginActions loginFailHtpasswdRegex
        ["Login with provider \"" ++ P ++ "\" succeeded for \"" ++ U ++ "\""] =
      some LoginAttempts.zero ∧
    getLoginActions loginFailOAuthRegex
        ["Login with provider \"" ++ P ++ "\" succeeded for \"" ++ U ++ "\""] =
      some LoginAttempts.zero ∧
    pushLoginAttemptsIntoMetricsChannel
        [LoginAttempts.zero.addAttempt P U, LoginAttempts.zero] loginsSucceededDesc =
      [⟨loginsSucceededDesc, 1, [P, U]⟩] ∧
    pushLoginAttemptsIntoMetricsChannel
        [LoginAttempts.zero, LoginAttempts.zero] loginsFailedDesc = [] ∧
    Scrape [some ["Login with provider \"" ++ P ++ "\" succeeded for \"" ++ U ++ "\""]] =
      some [⟨loginsSucceededDesc, 1, [P, U]⟩] ∧
    Metric.label ⟨loginsSucceededDesc, 1, [P, U]⟩ "user" = some U ∧
    Metric.label ⟨loginsSucceededDesc, 1, [P, U]⟩ "auth_provider" = some P ∧
    loginsSucceededDesc ≠ loginsFailedDesc := by
  have hP1 : ∀ x ∈ P.data, x ≠ '\n' ∧ x ≠ '"' := fun x hx =>
    ⟨(not_special_of_isAlphanum x (hP x hx)).1, (not_special_of_isAlphanum x (hP x hx)).2.1⟩
  have hU1 : ∀ x ∈ U.data, x ≠ '\n' ∧ x ≠ '"' := fun x hx =>
    ⟨(not_special_of_isAlphanum x (hU x hx)).1, (not_special_of_isAlphanum x (hU x hx)).2.1⟩
  have hP2 : ∀ x ∈ P.data, x ≠ ' ' := fun x hx => (not_special_of_isAlphanum x (hP x hx)).2.2.1
  have hU2 : ∀ x ∈ U.data, x ≠ ' ' := fun x hx => (not_special_of_isAlphanum x (hU x hx)).2.2.1
  have hP3 : ∀ x ∈ P.data, x ≠ ']' := fun x hx => (not_special_of_isAlphanum x (hP x hx)).2.2.2
  have hU3 : ∀ x ∈ U.data, x ≠ ']' := fun x hx => (not_special_of_isAlphanum x (hU x hx)).2.2.2
  have ha := getLoginActions_success_line P U hP1 hU1
  have hb := getLoginActions_fail_on_success_line P U hP2 hU2
  have hc := getLoginActions_successOAuth_on_success_line P U hP3 hU3
  have hd := getLoginActions_failOAuth_on_success_line P U hP3 hU3
  refine ⟨ha, hc, hb, hd, push_single_attempt P U _, push_no_attempt _, ?_, ?_, ?_, by decide⟩
  · simp only [Scrape, fillChannels, scrapePod, Option.getD_some, ha, hb, hc, hd,
      List.append_nil, push_single_attempt, push_no_attempt]
  · simp [Metric.label, loginsSucceededDesc, List.lookup]
  · simp [Metric.label, loginsSucceededDesc, List.lookup]

theorem scrape_single_succeeded_line_witness :
    Scrape [some ["Login with provider \"" ++ "htpasswd" ++ "\" succeeded for \"" ++ "alice" ++ "\""]] =
      some [⟨loginsSucceededDesc, 1, ["htpasswd", "alice"]⟩] :=
  (scrape_single_succeeded_line "htpasswd" "alice" (by decide) (by decide)).2.2.2.2.2.2.1

/-! ## Position of user and provider in the extracted pairs -/

/-- C3 (evaluation at the failing input): on the line
`Login with provider "htpasswd" succeeded for "alice"` (and on its `failed
for` variant) the htpasswd pattern yields one pair whose position 0 is the
provider name `htpasswd` and whose position 1 is the user `alice`; position 0
is what `addAttempt` receives as `user`. -/
theorem htpasswd_pair_holds_provider_at_position_0 :
    getLoginMatchesByRegex loginSuccessHtpasswdRegex
        ["Login with provider \"htpasswd\" succeeded for \"alice\""] =
      some [["htpasswd", "alice"]] ∧
    getLoginMatchesByRegex loginFailHtpasswdRegex
        ["Login with provider \"htpasswd\" failed for \"alice\""] =
      some [["htpasswd", "alice"]] ∧
    (getLoginActions loginSuccessHtpasswdRegex
        ["Login with provider \"htpasswd\" succeeded for \"alice\""]).map
        (fun a => (a.getUserList, a.getProviderList)) = some (["htpasswd"], ["alice"]) := by
  decide

/-! ## A pod whose log fetch failed -/

theorem getLoginActions_nil (regex : String) (h : regex ∈ listOfRegex) :
    getLoginActions regex [] = some LoginAttempts.zero := by
  simp only [listOfRegex, List.mem_cons, List.mem_singleton, List.not_mem_nil, or_false] at h
  rcases h with rfl | rfl | rfl | rfl
  · simp only [getLoginActions, getLoginMatchesByRegex, mustCompile_successHtpasswd, matchLines]
    rfl
  · simp only [getLoginActions, getLoginMatchesByRegex, mustCompile_successOAuth, matchLines]
    rfl
  · simp only [getLoginActions, getLoginMatchesByRegex, mustCompile_failHtpasswd, matchLines]
    rfl
  · simp only [getLoginActions, getLoginMatchesByRegex, mustCompile_failOAuth, matchLines]
    rfl

theorem mergeStep_zero (m : LoginAttempts) : mergeStep m LoginAttempts.zero = m := rfl

theorem mergeStep_empty_map (m : LoginAttempts) : mergeStep m ⟨some ∅⟩ = m := rfl

theorem scrapePod_nil :
    scrapePod [] = some ([LoginAttempts.zero, LoginAttempts.zero],
      [LoginAttempts.zero, LoginAttempts.zero]) := by
  simp only [scrapePod, getLoginActions_nil, listOfRegex, List.mem_cons, true_or, or_true]

/-! ## The extraction always returns for the registered patterns -/

theorem matchHere_caps_length (re : List Inst) (s : List Char) (x : MatchResult)
    (h : matchHere re s = some x) : x.1.length = capCount re := by
  induction re generalizing s x with
  | nil =>
    simp only [matchHere, Option.some.injEq] at h
    subst h
    rfl
  | cons i r ih =>
    cases i with
    | char c =>
      cases s with
      | nil => simp [matchHere] at h
      | cons a t =>
        simp only [matchHere] at h
        by_cases hac : a = c
        · rw [if_pos hac] at h
          exact ih t x h
        · rw [if_neg hac] at h
          cases h
    | anyStar =>
      have h1 : greedyLoop (matchHere r) s = some x := h
      obtain ⟨t, _, hk⟩ := greedyLoop_some _ s x h1
      exact ih t x hk
    | lazyCap =>
      have h1 : (lazyLoop (matchHere r) s).map (fun cr => (cr.1 :: cr.2.1, cr.2.2)) = some x := h
      cases hl : lazyLoop (matchHere r) s with
      | none => rw [hl] at h1; cases h1
      | some cx =>
        rw [hl] at h1
        simp only [Option.map_some', Option.some.injEq] at h1
        subst h1
        obtain ⟨t, _, hk⟩ := lazyLoop_some _ s cx hl
        simp only [List.length_cons, capCount]
        rw [ih t cx.2 hk]

theorem search_some (re : List Inst) (s : List Char) (i m0 m1 : Nat) (caps : List (List Char))
    (h : search re s i = some (m0, m1, caps)) :
    i ≤ m0 ∧ m0 ≤ m1 ∧ caps.length = capCount re := by
  induction s generalizing i with
  | nil =>
    rw [search] at h
    cases hm : matchHere re [] with
    | none => rw [hm] at h; cases h
    | some x =>
      obtain ⟨c, rest⟩ := x
      rw [hm] at h
      simp only [Option.some.injEq, Prod.mk.injEq] at h
      obtain ⟨rfl, rfl, rfl⟩ := h
      exact ⟨le_refl _, le_refl _, matchHere_caps_length re [] _ hm⟩
  | cons a t ih =>
    rw [search] at h
    cases hm : matchHere re (a :: t) with
    | none =>
      rw [hm] at h
      obtain ⟨h1, h2, h3⟩ := ih (i + 1) h
      exact ⟨by omega, h2, h3⟩
    | some x =>
      obtain ⟨c, rest⟩ := x
      rw [hm] at h
      simp only [Option.some.injEq, Prod.mk.injEq] at h
      obtain ⟨rfl, rfl, rfl⟩ := h
      exact ⟨le_refl _, Nat.le_add_right _ _, matchHere_caps_length re _ _ hm⟩

theorem allMatches_some (re : List Inst) (s : List Char) (fuel pos : Nat) (prev : Option Nat)
    (h1 : 1 ≤ fuel) (h2 : s.length + 2 ≤ fuel + pos) :
    ∃ ms, allMatches re s fuel pos prev = some ms ∧ ∀ m ∈ ms, m.length = capCount re + 1 := by
  induction fuel generalizing pos prev with
  | zero => omega
  | succ k ih =>
    rw [allMatches]
    by_cases hpos : s.length < pos
    · rw [if_pos hpos]
      exact ⟨[], rfl, fun m hm => absurd hm (List.not_mem_nil m)⟩
    · rw [if_neg hpos]
      cases hd : doExecute re s pos with
      | none => exact ⟨[], rfl, fun m hm => absurd hm (List.not_mem_nil m)⟩
      | some r =>
        obtain ⟨m0, m1, caps⟩ := r
        obtain ⟨b1, b2, b3⟩ := search_some re _ pos m0 m1 caps hd
        dsimp only
        generalize hq : (if m1 = pos then (if pos < s.length then pos + 1 else s.length + 1)
            else m1) = pos1
        have hstep : pos < pos1 := by
          rw [← hq]
          split_ifs <;> omega
        obtain ⟨rest, hrest, hlen⟩ := ih pos1 (some m1) (by omega) (by omega)
        rw [hrest]
        dsimp only
        split_ifs with hacc
        · refine ⟨_, rfl, ?_⟩
          intro m hm
          rcases List.mem_cons.1 hm with rfl | hm1
          · simp [b3]
          · exact hlen m hm1
        · exact ⟨rest, rfl, hlen⟩

theorem findAll_some (re : List Inst) (line : String) :
    ∃ ms, FindAllStringSubmatch re line = some ms ∧ ∀ m ∈ ms, m.length = capCount re + 1 := by
  obtain ⟨ms, h, hl⟩ := allMatches_some re line.data (line.data.length + 2) 0 none
    (by omega) (by omega)
  refine ⟨ms.map (fun m => m.map String.mk), by rw [FindAllStringSubmatch, h]; rfl, ?_⟩
  intro m hm
  obtain ⟨m1, hm1, rfl⟩ := List.mem_map.1 hm
  rw [List.length_map]
  exact hl m1 hm1

theorem matchesToPairs_some (ms : List (List String)) (h : ∀ m ∈ ms, m.length = 3) :
    ∃ ps, matchesToPairs ms = some ps ∧ ∀ q ∈ ps, q.length = 2 := by
  induction ms with
  | nil => exact ⟨[], rfl, fun q hq => absurd hq (List.not_mem_nil q)⟩
  | cons m ms1 ih =>
    obtain ⟨ps, hps, hl⟩ := ih (fun x hx => h x (List.mem_cons_of_mem _ hx))
    have hm := h m (List.mem_cons_self _ _)
    match m, hm with
    | [w, a, b], _ =>
      refine ⟨[a, b] :: ps, by simp [matchesToPairs, hps], ?_⟩
      intro q hq
      rcases List.mem_cons.1 hq with rfl | hq1
      · rfl
      · exact hl q hq1

theorem matchLines_some (re : List Inst) (hre : capCount re = 2) (logLines : List String) :
    ∃ ps, matchLines re logLines = some ps ∧ ∀ q ∈ ps, q.length = 2 := by
  induction logLines with
  | nil => exact ⟨[], rfl, fun q hq => absurd hq (List.not_mem_nil q)⟩
  | cons line rest ih =>
    obtain ⟨later, hlater, hl2⟩ := ih
    obtain ⟨ms, hms, hl⟩ := findAll_some re line
    obtain ⟨here, hhere, hl1⟩ := matchesToPairs_some ms (fun m hm => by rw [hl m hm, hre])
    refine ⟨here ++ later, by simp [matchLines, hms, hhere, hlater], ?_⟩
    intro q hq
    rcases List.mem_append.1 hq with h | h
    · exact hl1 q h
    · exact hl2 q h

theorem addResults_some (rs : List (List String)) (attempts : LoginAttempts)
    (h : ∀ q ∈ rs, q.length = 2) : ∃ a, addResults rs attempts = some a := by
  induction rs generalizing attempts with
  | nil => exact ⟨attempts, rfl⟩
  | cons r rs1 ih =>
    have hr := h r (List.mem_cons_self _ _)
    match r, hr with
    | [a, b], _ =>
      obtain ⟨x, hx⟩ := ih (attempts.addAttempt a b) (fun q hq => h q (List.mem_cons_of_mem _ hq))
      exact ⟨x, by simp [addResults, hx]⟩

theorem getLoginActions_some (regex : String) (h : regex ∈ listOfRegex) (logLines : List String) :
    ∃ a, getLoginActions regex logLines = some a := by
  have key : ∀ re, MustCompile regex = some re → capCount re = 2 →
      ∃ a, getLoginActions regex logLines = some a := by
    intro re hc hcap
    obtain ⟨ps, hps, hl⟩ := matchLines_some re hcap logLines
    obtain ⟨a, ha⟩ := addResults_some ps LoginAttempts.zero hl
    exact ⟨a, by simp [getLoginActions, getLoginMatchesByRegex, hc, hps, loginMatchesToLoginAttempts, ha]⟩
  simp only [listOfRegex, List.mem_cons, List.mem_singleton, List.not_mem_nil, or_false] at h
  rcases h with rfl | rfl | rfl | rfl
  · exact key _ mustCompile_successHtpasswd (by decide)
  · exact key _ mustCompile_successOAuth (by decide)
  · exact key _ mustCompile_failHtpasswd (by decide)
  · exact key _ mustCompile_failOAuth (by decide)

theorem scrapePod_some (logs : List String) : ∃ sf, scrapePod logs = some sf := by
  obtain ⟨a, ha⟩ := getLoginActions_some loginSuccessHtpasswdRegex (by simp [listOfRegex]) logs
  obtain ⟨b, hb⟩ := getLoginActions_some loginFailHtpasswdRegex (by simp [listOfRegex]) logs
  obtain ⟨c, hc⟩ := getLoginActions_some loginSuccessOAuthRegex (by simp [listOfRegex]) logs
  obtain ⟨d, hd⟩ := getLoginActions_some loginFailOAuthRegex (by simp [listOfRegex]) logs
  exact ⟨([a, c], [b, d]), by simp [scrapePod, ha, hb, hc, hd]⟩

theorem fillChannels_some (pods : List (Option (List String))) :
    ∃ sf, fillChannels pods = some sf := by
  induction pods with
  | nil => exact ⟨([], []), rfl⟩
  | cons pod pods1 ih =>
    obtain ⟨sf, hsf⟩ := ih
    obtain ⟨x, hx⟩ := scrapePod_some (pod.getD [])
    exact ⟨(x.1 ++ sf.1, x.2 ++ sf.2), by simp [fillChannels, hsf, hx]⟩

theorem fillChannels_without_failed_pods (pods : List (Option (List String))) :
    ∃ s f s1 f1, fillChannels pods = some (s, f) ∧
      fillChannels (pods.filter Option.isSome) = some (s1, f1) ∧
      ∀ acc, s.foldl mergeStep acc = s1.foldl mergeStep acc ∧
        f.foldl mergeStep acc = f1.foldl mergeStep acc := by
  induction pods with
  | nil => exact ⟨[], [], [], [], rfl, rfl, fun _ => ⟨rfl, rfl⟩⟩
  | cons pod pods1 ih =>
    obtain ⟨s, f, s1, f1, h, h1, hacc⟩ := ih
    cases pod with
    | none =>
      refine ⟨LoginAttempts.zero :: LoginAttempts.zero :: s,
        LoginAttempts.zero :: LoginAttempts.zero :: f, s1, f1, ?_, ?_, ?_⟩
      · simp [fillChannels, scrapePod_nil, h]
      · simpa using h1
      · intro acc
        simp only [List.foldl_cons, mergeStep_zero]
        exact hacc acc
    | some logs =>
      obtain ⟨x, hx⟩ := scrapePod_some logs
      refine ⟨x.1 ++ s, x.2 ++ f, x.1 ++ s1, x.2 ++ f1, ?_, ?_, ?_⟩
      · simp [fillChannels, hx, h]
      · simp [fillChannels, hx, h1]
      · intro acc
        simp only [List.foldl_append]
        exact ⟨(hacc _).1, (hacc _).2⟩

/-- C10: a pod whose log fetch failed contributes nothing and stops nothing.
For every registered pattern `getLoginActions` on the nil line list returns
the empty aggregate (as does every pattern that compiles); merging an empty
aggregate leaves the accumulator
unchanged; the cycle returns for every list of pods; and the merged
aggregates and the observations sent are those of the same cycle with the
failing pods removed, for every order in which the partial aggregates arrive
on the channels. -/
theorem failed_fetch_contributes_nothing (pods : List (Option (List String))) :
    (∀ regex ∈ listOfRegex, getLoginActions regex [] = some LoginAttempts.zero) ∧
    (∀ regex re, MustCompile regex = some re →
      getLoginActions regex [] = some LoginAttempts.zero) ∧
    (∀ m, mergeStep m LoginAttempts.zero = m) ∧
    (∃ sent, Scrape pods = some sent) ∧
    Scrape pods = Scrape (pods.filter Option.isSome) ∧
    (∃ s f s1 f1, fillChannels pods = some (s, f) ∧
      fillChannels (pods.filter Option.isSome) = some (s1, f1) ∧
      mergeLoop s = mergeLoop s1 ∧ mergeLoop f = mergeLoop f1 ∧
      ∀ ch ch1 : List LoginAttempts, (ch.Perm s ∧ ch1.Perm s1) ∨ (ch.Perm f ∧ ch1.Perm f1) →
        (∀ u p, (mergeLoop ch).lookupPair u p = (mergeLoop ch1).lookupPair u p) ∧
        (∀ u p, (mergeLoop ch).countOf u p = (mergeLoop ch1).countOf u p) ∧
        ∀ d m, m ∈ pushLoginAttemptsIntoMetricsChannel ch d ↔
          m ∈ pushLoginAttemptsIntoMetricsChannel ch1 d) := by
  obtain ⟨s, f, s1, f1, h, h1, hacc⟩ := fillChannels_without_failed_pods pods
  have hs : mergeLoop s = mergeLoop s1 := (hacc LoginAttempts.zero).1
  have hf : mergeLoop f = mergeLoop f1 := (hacc LoginAttempts.zero).2
  have hscrape : Scrape pods = Scrape (pods.filter Option.isSome) := by
    simp only [Scrape, h, h1, pushLoginAttemptsIntoMetricsChannel, hs, hf]
  refine ⟨fun regex hr => getLoginActions_nil regex hr, ?_, mergeStep_zero, ?_, hscrape,
    s, f, s1, f1, h, h1, hs, hf, ?_⟩
  · intro regex re hre
    simp only [getLoginActions, getLoginMatchesByRegex, hre, matchLines]
    rfl
  · exact ⟨pushLoginAttemptsIntoMetricsChannel s loginsSucceededDesc ++
      pushLoginAttemptsIntoMetricsChannel f loginsFailedDesc, by simp only [Scrape, h]⟩
  · intro ch ch1 hperm
    have hl : ∀ u p, (mergeLoop ch).lookupPair u p = (mergeLoop ch1).lookupPair u p := by
      intro u p
      rcases hperm with ⟨p1, p2⟩ | ⟨p1, p2⟩
      · rw [lookupPair_mergeLoop_perm ch s p1, lookupPair_mergeLoop_perm ch1 s1 p2, hs]
      · rw [lookupPair_mergeLoop_perm ch f p1, lookupPair_mergeLoop_perm ch1 f1 p2, hf]
    refine ⟨hl, ?_, ?_⟩
    · intro u p
      simp only [LoginAttempts.countOf, hl]
    · intro d m
      unfold pushLoginAttemptsIntoMetricsChannel
      rw [mem_sendMetrics, mem_sendMetrics]
      simp only [hl]

theorem failed_fetch_contributes_nothing_witness :
    Scrape [some ["Login with provider \"htpasswd\" succeeded for \"alice\""], none] =
      Scrape ([some ["Login with provider \"htpasswd\" succeeded for \"alice\""], none].filter
        Option.isSome) :=
  (failed_fetch_contributes_nothing
    [some ["Login with provider \"htpasswd\" succeeded for \"alice\""], none]).2.2.2.2.1

/-! ## When the merge loop adds exactly the received counts -/

theorem mem_lists_of_lookupPair (a : LoginAttempts) (u p : String) (c : Int)
    (h : a.lookupPair u p = some c) : u ∈ a.getUserList ∧ p ∈ a.getProviderList := by
  obtain ⟨inner, h1, h2⟩ := (lookupPair_iff_entries a u p c).1 h
  constructor
  · exact List.mem_map.2 ⟨_, h1, rfl⟩
  · unfold LoginAttempts.getProviderList
    rw [List.mem_flatMap]
    exact ⟨_, h1, List.mem_map.2 ⟨_, h2, rfl⟩⟩

/-- A received partial in which no provider is held by two subjects, and whose
counts are not negative, adds exactly its own count to every pair. -/
theorem contribution_eq_countOf (a : LoginAttempts) (hn : a.getProviderList.Nodup)
    (hpos : ∀ u p, 0 ≤ a.countOf u p) (u p : String) :
    contribution a u p = a.countOf u p := by
  unfold contribution
  cases hl : a.lookupPair u p with
  | none => simp [LoginAttempts.countOf, hl]
  | some c =>
    obtain ⟨hu, hp⟩ := mem_lists_of_lookupPair a u p c hl
    have hc : a.countOf u p = c := by simp [LoginAttempts.countOf, hl]
    have h0 := hpos u p
    have hk : a.getUserList.Nodup := a.outer.keys_nodup
    rw [List.count_eq_one_of_mem hk hu, List.count_eq_one_of_mem hn hp, hc]
    rw [hc] at h0
    simp only [Nat.one_mul]
    exact Int.toNat_of_nonneg h0

theorem countOf_mergeLoop_of_nodup (l : List LoginAttempts)
    (h : ∀ a ∈ l, a.getProviderList.Nodup ∧ ∀ u p, 0 ≤ a.countOf u p) (u p : String) :
    (mergeLoop l).countOf u p = (l.map (fun a => a.countOf u p)).sum := by
  rw [countOf_mergeLoop]
  congr 1
  apply List.map_congr_left
  intro a ha
  exact contribution_eq_countOf a (h a ha).1 (h a ha).2 u p

end Collector
